import Mathlib

/-!
Shallow embedding of the vacation-request tracker (src/db.py, rendered
by src/app.py).  The SQLite store is modelled as an explicit `Store`
value; each db.py function becomes a pure Lean function on it.  Dates
are the Python `datetime.date` values the app passes: sqlite3 stores
them as ISO yyyy-mm-dd text, so every SQL comparison on them coincides
with lexicographic order on (year, month, day), which is how `CalDate`
is ordered here.  Status strings are kept verbatim from the source
("pendiente", "aprobada", "rechazada"); the spec calls them pending,
approved and rejected.  Timestamps are abstracted as natural numbers
supplied by the caller (datetime.utcnow in the source).
-/

namespace VacacionesDB

/-- A calendar date (Python datetime.date), ordered lexicographically,
matching the ordering SQLite applies to its ISO text serialisation. -/
structure CalDate where
  y : Nat
  m : Nat
  d : Nat
deriving DecidableEq, Repr

/-- Boolean less-or-equal on dates: lexicographic on (y, m, d). -/
def CalDate.ble (a b : CalDate) : Bool :=
  Nat.blt a.y b.y || (a.y == b.y && (Nat.blt a.m b.m || (a.m == b.m && Nat.ble a.d b.d)))

/-- Boolean strict less-than on dates: lexicographic on (y, m, d). -/
def CalDate.blt (a b : CalDate) : Bool :=
  Nat.blt a.y b.y || (a.y == b.y && (Nat.blt a.m b.m || (a.m == b.m && Nat.blt a.d b.d)))

/-- Python max(a, b) on two dates: returns b exactly when a < b. -/
def dmax (a b : CalDate) : CalDate := if CalDate.blt a b then b else a

/-- Python min(a, b) on two dates: returns b exactly when b < a. -/
def dmin (a b : CalDate) : CalDate := if CalDate.blt b a then b else a

/-- A row of the vacations table (db.py init_db). -/
structure Request where
  id : Nat
  employee : String
  start_date : CalDate
  end_date : CalDate
  status : String
  note : Option String
  created_at : Nat
  approved_by : Option String
  approved_at : Option Nat
deriving DecidableEq, Repr

/-- The persistent state: the vacations table (in rowid order, which is
the order an unordered SELECT returns), the employees table as
(name, active) pairs, and the AUTOINCREMENT counter for vacation ids. -/
structure Store where
  vacations : List Request
  employees : List (String × Bool)
  next_id : Nat
deriving DecidableEq, Repr

/-- The schema-level CHECK constraint on vacations.status (db.py init_db):
status IN (pendiente, aprobada, rechazada). -/
def statusValid (s : String) : Bool :=
  s == "pendiente" || s == "aprobada" || s == "rechazada"

/-- db.py list_employees: SELECT name FROM employees, optionally
restricted to active=1. -/
def list_employees (st : Store) (active_only : Bool) : List String :=
  (if active_only then st.employees.filter (fun p => p.2) else st.employees).map (fun p => p.1)

/-- db.py add_employee: INSERT OR IGNORE INTO employees(name, active)
VALUES (?, 1).  The UNIQUE constraint on name makes a duplicate insert
a silent no-op; a fresh name is appended with active = 1. -/
def add_employee (st : Store) (name : String) : Store :=
  if st.employees.any (fun p => p.1 == name) then st
  else { st with employees := st.employees ++ [(name, true)] }

/-- db.py set_employee_active: UPDATE employees SET active=? WHERE name=?. -/
def set_employee_active (st : Store) (name : String) (active : Bool) : Store :=
  { st with employees := st.employees.map (fun p => if p.1 == name then (p.1, active) else p) }

/-- calendar.monthrange(y, m)[1] for m in 1..12: the number of days of
the month, with the Gregorian leap rule for February. -/
def daysInMonth (y m : Nat) : Nat :=
  if m == 2 then (if y % 4 == 0 && (y % 100 != 0 || y % 400 == 0) then 29 else 28)
  else if m == 4 || m == 6 || m == 9 || m == 11 then 30
  else 31

/-- One day after a date (Python date + timedelta(days=1)), rolling over
month and year boundaries via the month length. -/
def nextDay (a : CalDate) : CalDate :=
  if a.d < daysInMonth a.y a.m then { a with d := a.d + 1 }
  else if a.m < 12 then { y := a.y, m := a.m + 1, d := 1 }
  else { y := a.y + 1, m := 1, d := 1 }

/-- Fuel-indexed unfolding of the while loop in db.py daterange. -/
def daterangeAux : Nat → CalDate → CalDate → List CalDate
  | 0, _, _ => []
  | Nat.succ fuel, cur, d1 =>
    if CalDate.ble cur d1 then cur :: daterangeAux fuel (nextDay cur) d1 else []

/-- db.py daterange(d0, d1): the dates from d0 to d1 inclusive, empty
when d0 > d1.  The fuel bounds the loop; it exceeds the number of dates
between any two Python dates in the span of years involved. -/
def daterange (d0 d1 : CalDate) : List CalDate :=
  daterangeAux ((d1.y + 1 - d0.y) * 366 + 366) d0 d1

/-- db.py has_overlap_for_employee: COUNT(*) > 0 over rows of that
employee whose status is in (aprobada, pendiente) — or just (aprobada)
when include_pending is false — and whose range satisfies
NOT (end_date < start OR start_date > end). -/
def has_overlap_for_employee (st : Store) (employee : String)
    (start_date end_date : CalDate) (include_pending : Bool) : Bool :=
  st.vacations.any (fun r =>
    r.employee == employee
    && (if include_pending then r.status == "aprobada" || r.status == "pendiente"
        else r.status == "aprobada")
    && !(CalDate.blt r.end_date start_date || CalDate.blt end_date r.start_date))

/-- db.py create_request: INSERT a row with status pendiente, the next
AUTOINCREMENT id, created_at = now, and NULL approver fields. -/
def create_request (st : Store) (employee : String) (start_date end_date : CalDate)
    (note : Option String) (now : Nat) : Store :=
  { st with
    vacations := st.vacations ++
      [{ id := st.next_id, employee := employee, start_date := start_date,
         end_date := end_date, status := "pendiente", note := note,
         created_at := now, approved_by := none, approved_at := none }],
    next_id := st.next_id + 1 }

/-- db.py update_status: UPDATE vacations SET status, approved_by,
approved_at WHERE id=?.  approved_by is set to the approver argument
unconditionally; approved_at is now only for aprobada and rechazada.
SQLite evaluates the CHECK constraint per updated row, so an invalid
status errors (whole statement aborted, no partial write) exactly when
some row matches the id; with no matching row the statement is a no-op. -/
def update_status (st : Store) (vacation_id : Nat) (new_status : String)
    (approver : Option String) (now : Nat) : Except String Store :=
  if st.vacations.any (fun r => r.id == vacation_id) && !statusValid new_status then
    Except.error "CHECK constraint failed"
  else
    let stamp : Option Nat :=
      if new_status == "aprobada" || new_status == "rechazada" then some now else none
    Except.ok { st with
      vacations := st.vacations.map (fun r =>
        if r.id == vacation_id then
          { r with status := new_status, approved_by := approver, approved_at := stamp }
        else r) }

/-- db.py delete_request.  Pythons `if employee:` is truthiness: both
None and the empty string select the unconditional DELETE WHERE id=?;
a non-empty employee deletes only that employees own pendiente row. -/
def delete_request (st : Store) (vacation_id : Nat) (employee : Option String) : Store :=
  match employee with
  | some emp =>
    if emp == "" then
      { st with vacations := st.vacations.filter (fun r => !(r.id == vacation_id)) }
    else
      { st with vacations := st.vacations.filter (fun r =>
          !(r.id == vacation_id && r.employee == emp && r.status == "pendiente")) }
  | none => { st with vacations := st.vacations.filter (fun r => !(r.id == vacation_id)) }

/-- Insertion step for ORDER BY start_date ASC. -/
def insertByStart (r : Request) : List Request → List Request
  | [] => [r]
  | x :: xs =>
    if CalDate.ble r.start_date x.start_date then r :: x :: xs
    else x :: insertByStart r xs

/-- Stable sort by start_date, modelling ORDER BY start_date ASC. -/
def sortByStart : List Request → List Request
  | [] => []
  | x :: xs => insertByStart x (sortByStart xs)

/-- db.py list_requests.  Pythons `if year and month:` applies the date
filter only when both are given and non-zero; the SQL keeps rows with
strftime(%Y, start_date) = year AND (strftime(%m, start_date) = month
OR strftime(%m, end_date) = month) — note only the start dates year is
compared.  `if status:` filters by status only for a non-empty string.
Rows come back ORDER BY start_date ASC. -/
def list_requests (st : Store) (year month : Option Nat) (status : Option String) :
    List Request :=
  sortByStart (st.vacations.filter (fun r =>
    (match year, month with
     | some yv, some mv =>
       if yv != 0 && mv != 0 then
         r.start_date.y == yv && (r.start_date.m == mv || r.end_date.m == mv)
       else true
     | _, _ => true)
    && (match status with
        | some sv => if sv != "" then r.status == sv else true
        | none => true)))

/-- Python dict assignment dayMap[day] = v on the inner per-day dict:
replaces the value at an existing key in place, else appends the key. -/
def setKey (day : Nat) (v : Option String) :
    List (Nat × Option String) → List (Nat × Option String)
  | [] => [(day, v)]
  | (k, w) :: rest => if k == day then (day, v) :: rest else (k, w) :: setKey day v rest

/-- The guarded marking `if emp in matrix: matrix[emp][day] = status`:
rows of other employees are untouched, and a missing employee key makes
it a no-op. -/
def markCell (mat : List (String × List (Nat × Option String))) (emp : String)
    (day : Nat) (status : String) : List (String × List (Nat × Option String)) :=
  mat.map (fun row => if row.1 == emp then (row.1, setKey day (some status) row.2) else row)

/-- The per-request body of the loop in get_calendar_matrix: clip the
range to the month window [wstart, wend] and mark every day in it. -/
def markRequest (wstart wend : CalDate)
    (mat : List (String × List (Nat × Option String))) (r : Request) :
    List (String × List (Nat × Option String)) :=
  (daterange (dmax r.start_date wstart) (dmin r.end_date wend)).foldl
    (fun m dte => markCell m r.employee dte.d r.status) mat

/-- The first calendar day of the queried month: date(year, month, 1). -/
def windowStart (year month : Nat) : CalDate := { y := year, m := month, d := 1 }

/-- The last calendar day of the queried month: date(year, month, days). -/
def windowEnd (year month : Nat) : CalDate := { y := year, m := month, d := daysInMonth year month }

/-- The SQL fetch condition of get_calendar_matrix:
NOT (end_date < windowStart OR start_date > windowEnd). -/
def touchesWindow (year month : Nat) (r : Request) : Bool :=
  !(CalDate.blt r.end_date (windowStart year month)
    || CalDate.blt (windowEnd year month) (r.start_date))

/-- db.py get_calendar_matrix(year, month): rows keyed by the active
employees, one day key per day of the month initialised to None; every
stored request touching the month window is clipped to it and stamps
its status on each covered day of its employees row. -/
def get_calendar_matrix (st : Store) (year month : Nat) :
    (List (String × List (Nat × Option String))) × Nat :=
  let employees := list_employees st true
  let days := daysInMonth year month
  let base := employees.map (fun emp =>
    (emp, (List.range' 1 days).map (fun d => (d, (none : Option String)))))
  let rows := st.vacations.filter (touchesWindow year month)
  (rows.foldl (markRequest (windowStart year month) (windowEnd year month)) base, days)

/-- Read one cell of the matrix: the value at the given employee row and
day key, None when either key is absent. -/
def getCell (mat : List (String × List (Nat × Option String))) (emp : String)
    (day : Nat) : Option String :=
  match mat.find? (fun row => row.1 == emp) with
  | some row =>
    match row.2.find? (fun c => c.1 == day) with
    | some c => c.2
    | none => none
  | none => none

/-- The single-letter rendering in app.py: A for aprobada, P for
pendiente, R for rechazada, empty otherwise. -/
def statusCode (cell : Option String) : String :=
  if cell == some "aprobada" then "A"
  else if cell == some "pendiente" then "P"
  else if cell == some "rechazada" then "R"
  else ""

/-- The day-of-month lies in the clipped range of the request: the date
(year, month, day) is between max(start_date, windowStart) and
min(end_date, windowEnd). -/
def coversDay (year month : Nat) (r : Request) (day : Nat) : Bool :=
  CalDate.ble (dmax r.start_date (windowStart year month)) { y := year, m := month, d := day }
  && CalDate.ble { y := year, m := month, d := day } (dmin r.end_date (windowEnd year month))

/-- The stored request that determines the cell of the given employee
and day: the last request, in stored order, that touches the month
window, belongs to that employee and covers that day. -/
def lastCover (st : Store) (year month : Nat) (emp : String) (day : Nat) : Option Request :=
  (st.vacations.filter (fun r =>
    touchesWindow year month r && r.employee == emp && coversDay year month r day)).getLast?

/-- The output ordering contract of list_requests: start dates ascend. -/
def SortedStart (l : List Request) : Prop :=
  l.Pairwise (fun a b => CalDate.ble a.start_date b.start_date = true)

/-- The matrix has a row keyed by the given employee (emp in matrix). -/
def hasRow (mat : List (String × List (Nat × Option String))) (emp : String) : Bool :=
  (mat.find? (fun row => row.1 == emp)).isSome

/-- Every row of the matrix carries exactly the day keys 1..days, in order. -/
def RowsOk (days : Nat) (mat : List (String × List (Nat × Option String))) : Prop :=
  ∀ row ∈ mat, row.2.map Prod.fst = List.range' 1 days

/-- An approved March 2024 request of ANA, used in concrete instances. -/
def reqA : Request :=
  { id := 1, employee := "ANA", start_date := { y := 2024, m := 3, d := 4 },
    end_date := { y := 2024, m := 3, d := 5 }, status := "aprobada", note := none,
    created_at := 0, approved_by := some "BOSS", approved_at := some 1 }

/-- A pending March 2024 request of ANA overlapping reqA on day 4. -/
def reqP : Request :=
  { id := 2, employee := "ANA", start_date := { y := 2024, m := 3, d := 4 },
    end_date := { y := 2024, m := 3, d := 4 }, status := "pendiente", note := none,
    created_at := 0, approved_by := none, approved_at := none }

/-- A store holding the two overlapping ANA requests. -/
def stOverlap : Store :=
  { vacations := [reqA, reqP], employees := [("ANA", true)], next_id := 3 }

/-- A pending request of ANA spanning the 2023 to 2024 year boundary. -/
def reqDec : Request :=
  { id := 1, employee := "ANA", start_date := { y := 2023, m := 12, d := 28 },
    end_date := { y := 2024, m := 1, d := 3 }, status := "pendiente", note := none,
    created_at := 0, approved_by := none, approved_at := none }

/-- A store holding only the year-boundary request. -/
def stDec : Store :=
  { vacations := [reqDec], employees := [("ANA", true)], next_id := 2 }

/-- A single approved request with an earlier approver stamp. -/
def stApproved : Store :=
  { vacations := [reqA], employees := [("ANA", true)], next_id := 2 }

/-- reqA after update_status .. 1 pendiente (some X) 7: status and
timestamp reset, but the approver field overwritten with X, not cleared. -/
def reqAToPend : Request :=
  { id := 1, employee := "ANA", start_date := { y := 2024, m := 3, d := 4 },
    end_date := { y := 2024, m := 3, d := 5 }, status := "pendiente", note := none,
    created_at := 0, approved_by := some "X", approved_at := none }

/-- The result of update_status stApproved 1 pendiente (some X) 7. -/
def stApprovedToPend : Store :=
  { vacations := [reqAToPend], employees := [("ANA", true)], next_id := 2 }

/-- A March 2024 request held by the inactive employee BOB. -/
def reqBob : Request :=
  { id := 1, employee := "BOB", start_date := { y := 2024, m := 3, d := 10 },
    end_date := { y := 2024, m := 3, d := 12 }, status := "aprobada", note := none,
    created_at := 0, approved_by := some "BOSS", approved_at := some 1 }

/-- ANA active, BOB inactive; BOB holds a request inside March 2024. -/
def stInactive : Store :=
  { vacations := [reqBob], employees := [("ANA", true), ("BOB", false)], next_id := 2 }

/-- A request whose stored range is inverted: start_date > end_date,
yet the range still touches the March 2024 window. -/
def reqInv : Request :=
  { id := 1, employee := "ANA", start_date := { y := 2024, m := 3, d := 15 },
    end_date := { y := 2024, m := 3, d := 12 }, status := "aprobada", note := none,
    created_at := 0, approved_by := some "BOSS", approved_at := some 1 }

/-- A store holding only the inverted-range request. -/
def stInv : Store :=
  { vacations := [reqInv], employees := [("ANA", true)], next_id := 2 }

/-- The empty store. -/
def stEmpty : Store := { vacations := [], employees := [], next_id := 1 }

theorem CalDate.ble_iff (a b : CalDate) :
    (CalDate.ble a b = true) ↔
      a.y < b.y ∨ (a.y = b.y ∧ (a.m < b.m ∨ (a.m = b.m ∧ a.d ≤ b.d))) := by
  simp [CalDate.ble, Nat.blt_eq, Nat.ble_eq]

theorem CalDate.blt_iff (a b : CalDate) :
    (CalDate.blt a b = true) ↔
      a.y < b.y ∨ (a.y = b.y ∧ (a.m < b.m ∨ (a.m = b.m ∧ a.d < b.d))) := by
  simp [CalDate.blt, Nat.blt_eq]

theorem CalDate.ble_refl (a : CalDate) : CalDate.ble a a = true := by
  rw [CalDate.ble_iff]; omega

theorem CalDate.ble_trans {a b c : CalDate} (h1 : CalDate.ble a b = true)
    (h2 : CalDate.ble b c = true) : CalDate.ble a c = true := by
  rw [CalDate.ble_iff] at h1 h2 ⊢; omega

theorem CalDate.ble_of_not_ble {a b : CalDate} (h : CalDate.ble a b = false) :
    CalDate.ble b a = true := by
  have h2 : ¬(CalDate.ble a b = true) := by simp [h]
  rw [CalDate.ble_iff] at h2 ⊢; omega

theorem CalDate.ble_of_blt_false {a b : CalDate} (h : CalDate.blt a b = false) :
    CalDate.ble b a = true := by
  have h2 : ¬(CalDate.blt a b = true) := by simp [h]
  rw [CalDate.blt_iff] at h2; rw [CalDate.ble_iff]; omega

theorem CalDate.not_ble_of_blt {a b : CalDate} (h : CalDate.blt b a = true) :
    CalDate.ble a b = false := by
  rw [CalDate.blt_iff] at h
  cases hb : CalDate.ble a b
  · rfl
  · rw [CalDate.ble_iff] at hb; omega

theorem ble_dmax_left (a b : CalDate) : CalDate.ble a (dmax a b) = true := by
  unfold dmax
  split
  case isTrue h => rw [CalDate.ble_iff]; rw [CalDate.blt_iff] at h; omega
  case isFalse h => rw [CalDate.ble_iff]; omega

theorem ble_dmax_right (a b : CalDate) : CalDate.ble b (dmax a b) = true := by
  unfold dmax
  split
  case isTrue h => rw [CalDate.ble_iff]; omega
  case isFalse h => rw [CalDate.ble_iff]; rw [CalDate.blt_iff] at h; omega

theorem dmax_ble {a b c : CalDate} (h1 : CalDate.ble a c = true)
    (h2 : CalDate.ble b c = true) : CalDate.ble (dmax a b) c = true := by
  unfold dmax; split <;> assumption

theorem dmin_ble_left (a b : CalDate) : CalDate.ble (dmin a b) a = true := by
  unfold dmin
  split
  case isTrue h => rw [CalDate.ble_iff]; rw [CalDate.blt_iff] at h; omega
  case isFalse h => rw [CalDate.ble_iff]; omega

theorem dmin_ble_right (a b : CalDate) : CalDate.ble (dmin a b) b = true := by
  unfold dmin
  split
  case isTrue h => rw [CalDate.ble_iff]; omega
  case isFalse h => rw [CalDate.ble_iff]; rw [CalDate.blt_iff] at h; omega

theorem ble_dmin {a b c : CalDate} (h1 : CalDate.ble c a = true)
    (h2 : CalDate.ble c b = true) : CalDate.ble c (dmin a b) = true := by
  unfold dmin; split <;> assumption

theorem daysInMonth_le (y m : Nat) : daysInMonth y m ≤ 31 := by
  unfold daysInMonth
  split
  · split <;> omega
  · split <;> omega

theorem daysInMonth_pos (y m : Nat) : 1 ≤ daysInMonth y m := by
  unfold daysInMonth
  split
  · split <;> omega
  · split <;> omega

theorem CalDate.ble_eq_false (a b : CalDate)
    (h : ¬(a.y < b.y ∨ (a.y = b.y ∧ (a.m < b.m ∨ (a.m = b.m ∧ a.d ≤ b.d))))) :
    CalDate.ble a b = false := by
  cases hb : CalDate.ble a b
  · rfl
  · rw [CalDate.ble_iff] at hb; exact absurd hb h

theorem daterangeAux_nil {a b : CalDate} (h : CalDate.ble a b = false) (fuel : Nat) :
    daterangeAux fuel a b = [] := by
  cases fuel <;> simp [daterangeAux, h]

theorem daterangeAux_month (y m de days : Nat) (hdays : days = daysInMonth y m)
    (hde : de ≤ days) :
    ∀ fuel ds, de + 1 - ds ≤ fuel →
      daterangeAux fuel { y := y, m := m, d := ds } { y := y, m := m, d := de } =
        (List.range' ds (de + 1 - ds)).map (fun dd => { y := y, m := m, d := dd }) := by
  intro fuel
  induction fuel with
  | zero =>
    intro ds h
    have h0 : de + 1 - ds = 0 := by omega
    simp [daterangeAux, h0]
  | succ n ih =>
    intro ds h
    by_cases hle : ds ≤ de
    · have hble : CalDate.ble { y := y, m := m, d := ds } { y := y, m := m, d := de } = true := by
        rw [CalDate.ble_iff]; dsimp only; omega
      by_cases hlt : ds < days
      · have hnext : nextDay { y := y, m := m, d := ds } = { y := y, m := m, d := ds + 1 } := by
          unfold nextDay
          rw [if_pos]
          dsimp only
          omega
        have hrec := ih (ds + 1) (by omega)
        have hlen : de + 1 - ds = (de - ds) + 1 := by omega
        rw [hlen, List.range'_succ]
        simp only [daterangeAux, hble, if_true, hnext, List.map_cons]
        rw [hrec]
        have hlen2 : de + 1 - (ds + 1) = de - ds := by omega
        rw [hlen2]
      · have hds : ds = de := by omega
        subst hds
        have hroll : CalDate.ble (nextDay { y := y, m := m, d := ds })
            { y := y, m := m, d := ds } = false := by
          unfold nextDay
          rw [if_neg (by dsimp only; omega)]
          split
          · exact CalDate.ble_eq_false _ _ (by dsimp only; omega)
          · exact CalDate.ble_eq_false _ _ (by dsimp only; omega)
        have h1 : ds + 1 - ds = 1 := by omega
        rw [h1, List.range'_one]
        simp only [daterangeAux, hble, if_true, daterangeAux_nil hroll, List.map_cons,
          List.map_nil]
    · have hble : CalDate.ble { y := y, m := m, d := ds } { y := y, m := m, d := de } = false :=
        CalDate.ble_eq_false _ _ (by dsimp only; omega)
      have h0 : de + 1 - ds = 0 := by omega
      simp [daterangeAux, hble, h0]

theorem daterange_month (y m ds de : Nat) (hde : de ≤ daysInMonth y m) :
    daterange { y := y, m := m, d := ds } { y := y, m := m, d := de } =
      (List.range' ds (de + 1 - ds)).map (fun dd => { y := y, m := m, d := dd }) := by
  unfold daterange
  exact daterangeAux_month y m de (daysInMonth y m) rfl hde _ ds
    (by have := daysInMonth_le y m; dsimp only; omega)

theorem between_window {y m days : Nat} {c : CalDate}
    (h1 : CalDate.ble { y := y, m := m, d := 1 } c = true)
    (h2 : CalDate.ble c { y := y, m := m, d := days } = true) :
    c.y = y ∧ c.m = m ∧ 1 ≤ c.d ∧ c.d ≤ days := by
  rw [CalDate.ble_iff] at h1 h2
  dsimp only at h1 h2
  omega

theorem find?_setKey_self (day : Nat) (v : Option String) (l : List (Nat × Option String)) :
    (setKey day v l).find? (fun c => c.1 == day) = some (day, v) := by
  induction l with
  | nil => simp [setKey]
  | cons hd tl ih =>
    obtain ⟨k, w⟩ := hd
    by_cases hk : k = day
    · subst hk
      simp [setKey]
    · simp [setKey, hk, ih]

theorem find?_setKey_other {day day2 : Nat} (h : day ≠ day2) (v : Option String)
    (l : List (Nat × Option String)) :
    (setKey day2 v l).find? (fun c => c.1 == day) = l.find? (fun c => c.1 == day) := by
  induction l with
  | nil => simp [setKey, Ne.symm h]
  | cons hd tl ih =>
    obtain ⟨k, w⟩ := hd
    by_cases hk : k = day2
    · subst hk
      simp [setKey, Ne.symm h]
    · by_cases hkd : k = day
      · subst hkd
        simp [setKey, hk]
      · simp [setKey, hk, hkd, ih]

theorem setKey_keys_mem {day : Nat} {l : List (Nat × Option String)}
    (h : day ∈ l.map Prod.fst) (v : Option String) :
    (setKey day v l).map Prod.fst = l.map Prod.fst := by
  induction l with
  | nil => simp at h
  | cons hd tl ih =>
    obtain ⟨k, w⟩ := hd
    by_cases hk : k = day
    · subst hk
      simp [setKey]
    · have hmem : day ∈ tl.map Prod.fst := by
        simp only [List.map_cons, List.mem_cons] at h
        rcases h with h | h
        · exact absurd h.symm hk
        · exact h
      simp [setKey, hk, ih hmem]

theorem markCell_keys (mat : List (String × List (Nat × Option String)))
    (emp : String) (day : Nat) (status : String) :
    (markCell mat emp day status).map Prod.fst = mat.map Prod.fst := by
  unfold markCell
  rw [List.map_map]
  apply List.map_congr_left
  intro a _
  simp only [Function.comp_apply]
  split <;> rfl

theorem hasRow_iff (mat : List (String × List (Nat × Option String))) (emp : String) :
    hasRow mat emp = true ↔ emp ∈ mat.map Prod.fst := by
  unfold hasRow
  rw [Option.isSome_iff_exists]
  constructor
  · rintro ⟨row, hrow⟩
    have hmem := List.mem_of_find?_eq_some hrow
    have hp := List.find?_some hrow
    simp only [beq_iff_eq] at hp
    exact hp ▸ List.mem_map_of_mem Prod.fst hmem
  · intro hmem
    rcases List.mem_map.mp hmem with ⟨row, hrow, hfst⟩
    have : (mat.find? (fun row => row.1 == emp)).isSome = true := by
      rw [List.find?_isSome]
      exact ⟨row, hrow, by simp [hfst]⟩
    rcases Option.isSome_iff_exists.mp this with ⟨row2, h2⟩
    exact ⟨row2, h2⟩

theorem hasRow_congr {mat mat2 : List (String × List (Nat × Option String))}
    (h : mat.map Prod.fst = mat2.map Prod.fst) (emp : String) :
    hasRow mat emp = hasRow mat2 emp := by
  rw [Bool.eq_iff_iff, hasRow_iff, hasRow_iff, h]

theorem getCell_of_not_hasRow {mat : List (String × List (Nat × Option String))}
    {emp : String} (h : hasRow mat emp = false) (day : Nat) :
    getCell mat emp day = none := by
  unfold hasRow at h
  unfold getCell
  cases hf : mat.find? (fun row => row.1 == emp) with
  | none => rfl
  | some row => rw [hf] at h; simp at h

theorem getCell_markCell (mat : List (String × List (Nat × Option String)))
    (emp2 : String) (day2 : Nat) (status : String) (emp : String) (day : Nat) :
    getCell (markCell mat emp2 day2 status) emp day =
      if emp = emp2 ∧ day = day2 ∧ hasRow mat emp = true then some status
      else getCell mat emp day := by
  unfold getCell markCell hasRow
  rw [List.find?_map]
  have hpf : ((fun row : String × List (Nat × Option String) => row.1 == emp) ∘
      (fun row : String × List (Nat × Option String) =>
        if row.1 == emp2 then (row.1, setKey day2 (some status) row.2) else row)) =
      (fun row : String × List (Nat × Option String) => row.1 == emp) := by
    funext row
    simp only [Function.comp_apply]
    split <;> rfl
  rw [hpf]
  cases hf : mat.find? (fun row => row.1 == emp) with
  | none => simp
  | some row =>
    have hrow : row.1 = emp := by
      have := List.find?_some hf
      simpa using this
    by_cases hemp : emp = emp2
    · by_cases hday : day = day2
      · subst hday
        simp only [Option.map_some']
        rw [if_pos (show (row.1 == emp2) = true by simp [hrow, hemp])]
        dsimp only
        rw [find?_setKey_self]
        simp [hemp]
      · simp only [Option.map_some']
        rw [if_pos (show (row.1 == emp2) = true by simp [hrow, hemp])]
        dsimp only
        rw [find?_setKey_other hday]
        simp [hday]
    · simp only [Option.map_some']
      rw [if_neg (show ¬((row.1 == emp2) = true) by simp [hrow, hemp])]
      simp [hemp]

theorem getCell_foldl_markCell (emp2 status : String) (dl : List CalDate) :
    ∀ (mat : List (String × List (Nat × Option String))) (emp : String) (day : Nat),
      getCell (dl.foldl (fun m dte => markCell m emp2 dte.d status) mat) emp day =
        if emp = emp2 ∧ (∃ dte ∈ dl, dte.d = day) ∧ hasRow mat emp = true then some status
        else getCell mat emp day := by
  induction dl with
  | nil => intro mat emp day; simp
  | cons hd tl ih =>
    intro mat emp day
    rw [List.foldl_cons, ih, getCell_markCell,
      hasRow_congr (markCell_keys mat emp2 hd.d status) emp]
    by_cases h1 : emp = emp2 ∧ (∃ dte ∈ tl, dte.d = day) ∧ hasRow mat emp = true
    · rw [if_pos h1, if_pos ?_]
      obtain ⟨he, ⟨dte, hmem, hdte⟩, hrow⟩ := h1
      exact ⟨he, ⟨dte, List.mem_cons_of_mem hd hmem, hdte⟩, hrow⟩
    · rw [if_neg h1]
      by_cases h2 : emp = emp2 ∧ day = hd.d ∧ hasRow mat emp = true
      · rw [if_pos h2, if_pos ?_]
        exact ⟨h2.1, ⟨hd, List.mem_cons_self hd tl, h2.2.1.symm⟩, h2.2.2⟩
      · rw [if_neg h2, if_neg ?_]
        rintro ⟨he, ⟨dte, hmem, hdte⟩, hrow⟩
        rcases List.mem_cons.mp hmem with heq | htl
        · exact h2 ⟨he, by rw [← hdte, heq], hrow⟩
        · exact h1 ⟨he, ⟨dte, htl, hdte⟩, hrow⟩

theorem CalDate.eq_mk_of {y m : Nat} (c : CalDate) (hy : c.y = y) (hm : c.m = m) :
    c = { y := y, m := m, d := c.d } := by
  obtain ⟨cy, cm, cd⟩ := c
  dsimp only at hy hm ⊢
  rw [hy, hm]

theorem window_start_ble_end (year month : Nat) :
    CalDate.ble (windowStart year month) (windowEnd year month) = true := by
  unfold windowStart windowEnd
  rw [CalDate.ble_iff]
  dsimp only
  have := daysInMonth_pos year month
  omega

theorem clip_days (year month : Nat) (r : Request)
    (hr : touchesWindow year month r = true) :
    ∃ ds de,
      daterange (dmax r.start_date (windowStart year month))
          (dmin r.end_date (windowEnd year month)) =
        (List.range' ds (de + 1 - ds)).map (fun dd => { y := year, m := month, d := dd })
      ∧ 1 ≤ ds ∧ de ≤ daysInMonth year month
      ∧ (∀ day, coversDay year month r day = true ↔ (ds ≤ day ∧ day ≤ de)) := by
  have htw : CalDate.blt r.end_date (windowStart year month) = false
      ∧ CalDate.blt (windowEnd year month) r.start_date = false := by
    unfold touchesWindow at hr
    constructor
    · cases h : CalDate.blt r.end_date (windowStart year month)
      · rfl
      · rw [h] at hr; simp at hr
    · cases h : CalDate.blt (windowEnd year month) r.start_date
      · rfl
      · rw [h] at hr; simp at hr
  have hse : CalDate.ble (windowStart year month) r.end_date = true :=
    CalDate.ble_of_blt_false htw.1
  have hsw : CalDate.ble r.start_date (windowEnd year month) = true :=
    CalDate.ble_of_blt_false htw.2
  have hwswe := window_start_ble_end year month
  have hcs1 : CalDate.ble (windowStart year month)
      (dmax r.start_date (windowStart year month)) = true := ble_dmax_right _ _
  have hcs2 : CalDate.ble (dmax r.start_date (windowStart year month))
      (windowEnd year month) = true := dmax_ble hsw hwswe
  have hce1 : CalDate.ble (windowStart year month)
      (dmin r.end_date (windowEnd year month)) = true := ble_dmin hse hwswe
  have hce2 : CalDate.ble (dmin r.end_date (windowEnd year month))
      (windowEnd year month) = true := dmin_ble_right _ _
  have hcsw := between_window hcs1 hcs2
  have hcew := between_window hce1 hce2
  refine ⟨(dmax r.start_date (windowStart year month)).d,
    (dmin r.end_date (windowEnd year month)).d, ?_, hcsw.2.2.1, hcew.2.2.2, ?_⟩
  · have hcs : dmax r.start_date (windowStart year month) =
        { y := year, m := month, d := (dmax r.start_date (windowStart year month)).d } :=
      CalDate.eq_mk_of _ hcsw.1 hcsw.2.1
    have hce : dmin r.end_date (windowEnd year month) =
        { y := year, m := month, d := (dmin r.end_date (windowEnd year month)).d } :=
      CalDate.eq_mk_of _ hcew.1 hcew.2.1
    rw [hcs, hce]
    exact daterange_month year month _ _ hcew.2.2.2
  · intro day
    unfold coversDay
    rw [Bool.and_eq_true, CalDate.ble_iff, CalDate.ble_iff]
    constructor
    · intro h
      obtain ⟨ha, hb⟩ := h
      dsimp only at ha hb
      omega
    · intro h
      constructor
      · dsimp only; omega
      · dsimp only; omega

theorem markRequest_keys (ws we : CalDate) (mat : List (String × List (Nat × Option String)))
    (r : Request) : (markRequest ws we mat r).map Prod.fst = mat.map Prod.fst := by
  unfold markRequest
  generalize daterange (dmax r.start_date ws) (dmin r.end_date we) = dl
  induction dl generalizing mat with
  | nil => rfl
  | cons hd tl ih => rw [List.foldl_cons, ih, markCell_keys]

theorem foldl_markRequest_keys (ws we : CalDate) (rows : List Request) :
    ∀ mat : List (String × List (Nat × Option String)),
      (rows.foldl (markRequest ws we) mat).map Prod.fst = mat.map Prod.fst := by
  induction rows with
  | nil => intro mat; rfl
  | cons r rest ih => intro mat; rw [List.foldl_cons, ih, markRequest_keys]

theorem getCell_markRequest (year month : Nat) (r : Request)
    (hr : touchesWindow year month r = true)
    (mat : List (String × List (Nat × Option String))) (emp : String) (day : Nat) :
    getCell (markRequest (windowStart year month) (windowEnd year month) mat r) emp day =
      if emp = r.employee ∧ coversDay year month r day = true ∧ hasRow mat emp = true
      then some r.status
      else getCell mat emp day := by
  unfold markRequest
  rw [getCell_foldl_markCell]
  obtain ⟨ds, de, hdr, hds, hde, hcov⟩ := clip_days year month r hr
  have hmem : (∃ dte ∈ daterange (dmax r.start_date (windowStart year month))
      (dmin r.end_date (windowEnd year month)), dte.d = day) ↔
      coversDay year month r day = true := by
    rw [hdr, hcov day]
    constructor
    · rintro ⟨dte, hmem, hd⟩
      rcases List.mem_map.mp hmem with ⟨dd, hdd, hmk⟩
      rw [← hmk] at hd
      dsimp only at hd
      rw [List.mem_range'_1] at hdd
      omega
    · rintro ⟨h1, h2⟩
      refine ⟨{ y := year, m := month, d := day }, ?_, rfl⟩
      exact List.mem_map.mpr ⟨day, List.mem_range'_1.mpr (by omega), rfl⟩
  simp only [hmem]

theorem getCell_foldl_markRequest (year month : Nat) (rows : List Request) :
    ∀ (mat : List (String × List (Nat × Option String))) (emp : String) (day : Nat),
      (∀ r ∈ rows, touchesWindow year month r = true) → hasRow mat emp = true →
      getCell (rows.foldl (markRequest (windowStart year month) (windowEnd year month)) mat)
          emp day =
        (((rows.filter (fun r => r.employee == emp && coversDay year month r day)).getLast?).map
          (fun r => (some r.status : Option String))).getD (getCell mat emp day) := by
  induction rows with
  | nil => intro mat emp day _ _; simp
  | cons r rest ih =>
    intro mat emp day h hrow
    have hr := h r (List.mem_cons_self r rest)
    have hrest : ∀ x ∈ rest, touchesWindow year month x = true :=
      fun x hx => h x (List.mem_cons_of_mem r hx)
    have hrow2 : hasRow (markRequest (windowStart year month) (windowEnd year month) mat r)
        emp = true := by
      rw [hasRow_congr (markRequest_keys _ _ mat r) emp]
      exact hrow
    rw [List.foldl_cons, ih _ emp day hrest hrow2,
      getCell_markRequest year month r hr mat emp day, List.filter_cons]
    by_cases hp : (r.employee == emp && coversDay year month r day) = true
    · rw [if_pos hp]
      rw [Bool.and_eq_true, beq_iff_eq] at hp
      rw [List.getLast?_cons]
      cases hlast : (rest.filter
          (fun x => x.employee == emp && coversDay year month x day)).getLast? with
      | none =>
        rw [if_pos ⟨hp.1.symm, hp.2, hrow⟩]
        simp [hlast]
      | some rl => simp [hlast]
    · rw [if_neg hp, if_neg (fun hcond =>
        hp (by rw [Bool.and_eq_true, beq_iff_eq]; exact ⟨hcond.1.symm, hcond.2.1⟩))]

theorem base_keys (employees : List String) (days : Nat) :
    ((employees.map (fun e =>
      (e, (List.range' 1 days).map (fun d => (d, (none : Option String)))))).map Prod.fst) =
      employees := by
  rw [List.map_map]
  have : (Prod.fst ∘ fun e : String =>
      (e, (List.range' 1 days).map (fun d => (d, (none : Option String))))) =
      fun e : String => e := rfl
  rw [this]
  exact List.map_id' employees

theorem getCell_base (employees : List String) (days : Nat) (emp : String) (day : Nat) :
    getCell (employees.map (fun e =>
      (e, (List.range' 1 days).map (fun d => (d, (none : Option String)))))) emp day = none := by
  unfold getCell
  rw [List.find?_map]
  have hpf : ((fun row : String × List (Nat × Option String) => row.1 == emp) ∘
      (fun e : String => (e, (List.range' 1 days).map (fun d => (d, (none : Option String)))))) =
      (fun e : String => e == emp) := rfl
  rw [hpf]
  cases hf : employees.find? (fun e => e == emp) with
  | none => rfl
  | some e =>
    simp only [Option.map_some']
    cases hc : ((List.range' 1 days).map
        (fun d => (d, (none : Option String)))).find? (fun c => c.1 == day) with
    | none => rfl
    | some c =>
      have hmem := List.mem_of_find?_eq_some hc
      rcases List.mem_map.mp hmem with ⟨dd, _, hdd⟩
      rw [← hdd]

theorem RowsOk_markCell {days : Nat} {mat : List (String × List (Nat × Option String))}
    (h : RowsOk days mat) {day : Nat} (hday : 1 ≤ day ∧ day ≤ days)
    (emp status : String) : RowsOk days (markCell mat emp day status) := by
  intro row hrow
  unfold markCell at hrow
  rcases List.mem_map.mp hrow with ⟨row0, hrow0, heq⟩
  by_cases hm : (row0.1 == emp) = true
  · rw [if_pos hm] at heq
    rw [← heq]
    dsimp only
    have hkeys := h row0 hrow0
    have hdmem : day ∈ row0.2.map Prod.fst := by
      rw [hkeys]
      exact List.mem_range'_1.mpr ⟨hday.1, by omega⟩
    rw [setKey_keys_mem hdmem, hkeys]
  · rw [if_neg hm] at heq
    rw [← heq]
    exact h row0 hrow0

theorem RowsOk_foldl_days (days : Nat) (emp status : String) :
    ∀ l : List Nat, (∀ dd ∈ l, 1 ≤ dd ∧ dd ≤ days) →
      ∀ mat, RowsOk days mat →
        RowsOk days (l.foldl (fun m dd => markCell m emp dd status) mat) := by
  intro l
  induction l with
  | nil => intro _ mat h; exact h
  | cons hd tl ih =>
    intro hb mat h
    rw [List.foldl_cons]
    exact ih (fun dd hdd => hb dd (List.mem_cons_of_mem hd hdd))
      _ (RowsOk_markCell h (hb hd (List.mem_cons_self hd tl)) emp status)

theorem RowsOk_markRequest (year month : Nat) (r : Request)
    (hr : touchesWindow year month r = true)
    {mat : List (String × List (Nat × Option String))}
    (h : RowsOk (daysInMonth year month) mat) :
    RowsOk (daysInMonth year month)
      (markRequest (windowStart year month) (windowEnd year month) mat r) := by
  unfold markRequest
  obtain ⟨ds, de, hdr, hds, hde, hcov⟩ := clip_days year month r hr
  rw [hdr, List.foldl_map]
  exact RowsOk_foldl_days (daysInMonth year month) r.employee r.status
    (List.range' ds (de + 1 - ds))
    (fun dd hdd => by rw [List.mem_range'_1] at hdd; omega) mat h

theorem RowsOk_foldl_requests (year month : Nat) (rows : List Request)
    (hrows : ∀ r ∈ rows, touchesWindow year month r = true) :
    ∀ mat, RowsOk (daysInMonth year month) mat →
      RowsOk (daysInMonth year month)
        (rows.foldl (markRequest (windowStart year month) (windowEnd year month)) mat) := by
  induction rows with
  | nil => intro mat h; exact h
  | cons r rest ih =>
    intro mat h
    rw [List.foldl_cons]
    exact ih (fun x hx => hrows x (List.mem_cons_of_mem r hx)) _
      (RowsOk_markRequest year month r (hrows r (List.mem_cons_self r rest)) h)

theorem RowsOk_base (employees : List String) (days : Nat) :
    RowsOk days (employees.map (fun e =>
      (e, (List.range' 1 days).map (fun d => (d, (none : Option String)))))) := by
  intro row hrow
  rcases List.mem_map.mp hrow with ⟨e, _, heq⟩
  rw [← heq]
  dsimp only
  rw [List.map_map]
  have : (Prod.fst ∘ fun d : Nat => (d, (none : Option String))) = fun d : Nat => d := rfl
  rw [this]
  exact List.map_id' _

theorem get_calendar_matrix_days (st : Store) (year month : Nat) :
    (get_calendar_matrix st year month).2 = daysInMonth year month := rfl

theorem get_calendar_matrix_keys (st : Store) (year month : Nat) :
    (get_calendar_matrix st year month).1.map Prod.fst = list_employees st true := by
  unfold get_calendar_matrix
  dsimp only
  rw [foldl_markRequest_keys, base_keys]

theorem get_calendar_matrix_rows_ok (st : Store) (year month : Nat) :
    RowsOk (daysInMonth year month) (get_calendar_matrix st year month).1 := by
  unfold get_calendar_matrix
  dsimp only
  exact RowsOk_foldl_requests year month _
    (fun r hr => (List.mem_filter.mp hr).2) _
    (RowsOk_base (list_employees st true) (daysInMonth year month))

theorem get_calendar_matrix_cell (st : Store) (year month : Nat) (emp : String) (day : Nat)
    (hemp : emp ∈ list_employees st true) :
    getCell (get_calendar_matrix st year month).1 emp day =
      (lastCover st year month emp day).map (fun r => r.status) := by
  unfold get_calendar_matrix
  dsimp only
  have hrow : hasRow (list_employees st true |>.map (fun e =>
      (e, (List.range' 1 (daysInMonth year month)).map
        (fun d => (d, (none : Option String)))))) emp = true := by
    rw [hasRow_iff, base_keys]
    exact hemp
  rw [getCell_foldl_markRequest year month _ _ emp day
    (fun r hr => (List.mem_filter.mp hr).2) hrow]
  rw [getCell_base]
  unfold lastCover
  rw [List.filter_filter]
  have hfeq : ∀ a ∈ st.vacations,
      ((fun r => r.employee == emp && coversDay year month r day) a
        && (touchesWindow year month) a) =
      (fun r => touchesWindow year month r && r.employee == emp
        && coversDay year month r day) a := by
    intro a _
    dsimp only
    cases touchesWindow year month a <;> cases (a.employee == emp)
      <;> cases coversDay year month a day <;> rfl
  rw [List.filter_congr hfeq]
  cases hlast : (st.vacations.filter (fun r => touchesWindow year month r
      && r.employee == emp && coversDay year month r day)).getLast? with
  | none => rfl
  | some rl => rfl

theorem contains_iff_mem (l : List String) (a : String) : l.contains a = true ↔ a ∈ l := by
  unfold List.contains
  exact List.elem_iff

theorem markCell_no_row {mat : List (String × List (Nat × Option String))} {emp : String}
    (h : hasRow mat emp = false) (day : Nat) (status : String) :
    markCell mat emp day status = mat := by
  unfold markCell
  have hnone : mat.find? (fun row => row.1 == emp) = none := by
    unfold hasRow at h
    exact Option.not_isSome_iff_eq_none.mp (by simp [h])
  have hall := List.find?_eq_none.mp hnone
  have hpt : ∀ row ∈ mat,
      (if row.1 == emp then (row.1, setKey day (some status) row.2) else row) = row :=
    fun row hr => if_neg (hall row hr)
  rw [List.map_congr_left hpt, List.map_id']

theorem markRequest_no_row (ws we : CalDate) (r : Request)
    {mat : List (String × List (Nat × Option String))}
    (h : hasRow mat r.employee = false) :
    markRequest ws we mat r = mat := by
  unfold markRequest
  generalize daterange (dmax r.start_date ws) (dmin r.end_date we) = dl
  induction dl with
  | nil => rfl
  | cons hd tl ih => rw [List.foldl_cons, markCell_no_row h hd.d r.status, ih]

theorem foldl_markRequest_skip_missing (ws we : CalDate) (keys : List String)
    (rows : List Request) :
    ∀ mat : List (String × List (Nat × Option String)), mat.map Prod.fst = keys →
      rows.foldl (markRequest ws we) mat =
        (rows.filter (fun r => keys.contains r.employee)).foldl (markRequest ws we) mat := by
  induction rows with
  | nil => intro mat _; rfl
  | cons r rest ih =>
    intro mat hk
    rw [List.foldl_cons, List.filter_cons]
    cases hp : (keys.contains r.employee) with
    | false =>
      have hnorow : hasRow mat r.employee = false := by
        cases hh : hasRow mat r.employee
        · rfl
        · exfalso
          rw [hasRow_iff, hk] at hh
          rw [← contains_iff_mem keys r.employee] at hh
          rw [hp] at hh
          exact Bool.false_ne_true hh
      rw [markRequest_no_row ws we r hnorow, if_neg (by simp [hp])]
      exact ih mat hk
    | true =>
      rw [if_pos rfl, List.foldl_cons]
      exact ih (markRequest ws we mat r) (by rw [markRequest_keys]; exact hk)

theorem get_calendar_matrix_filter_inactive (st : Store) (year month : Nat) :
    get_calendar_matrix st year month =
      get_calendar_matrix
        { st with
          vacations := st.vacations.filter (fun r => (list_employees st true).contains r.employee) }
        year month := by
  unfold get_calendar_matrix
  dsimp only
  congr 1
  rw [foldl_markRequest_skip_missing (windowStart year month) (windowEnd year month)
    (list_employees st true) _ _ (base_keys (list_employees st true) (daysInMonth year month))]
  congr 1
  rw [List.filter_filter, List.filter_filter]
  apply List.filter_congr
  intro a _
  dsimp only
  cases touchesWindow year month a <;> cases (list_employees st true).contains a.employee <;> rfl

theorem mem_insertByStart (r a : Request) (l : List Request) :
    a ∈ insertByStart r l ↔ a = r ∨ a ∈ l := by
  induction l with
  | nil => simp [insertByStart]
  | cons x xs ih =>
    unfold insertByStart
    split
    · simp [List.mem_cons]
    · simp only [List.mem_cons, ih]
      tauto

theorem perm_insertByStart (r : Request) (l : List Request) :
    (insertByStart r l).Perm (r :: l) := by
  induction l with
  | nil => exact List.Perm.refl _
  | cons x xs ih =>
    unfold insertByStart
    split
    · exact List.Perm.refl _
    · exact (List.Perm.cons x ih).trans (List.Perm.swap r x xs)

theorem sortByStart_perm (l : List Request) : (sortByStart l).Perm l := by
  induction l with
  | nil => exact List.Perm.refl _
  | cons x xs ih =>
    unfold sortByStart
    exact (perm_insertByStart x (sortByStart xs)).trans (List.Perm.cons x ih)

theorem sortedStart_insertByStart (r : Request) {l : List Request} (h : SortedStart l) :
    SortedStart (insertByStart r l) := by
  induction l with
  | nil => unfold SortedStart insertByStart; exact List.pairwise_cons.mpr ⟨by simp, List.Pairwise.nil⟩
  | cons x xs ih =>
    unfold SortedStart at h ⊢
    unfold insertByStart
    split
    case isTrue hble =>
      refine List.pairwise_cons.mpr ⟨?_, h⟩
      intro b hb
      rcases List.mem_cons.mp hb with heq | hbxs
      · rw [heq]; exact hble
      · exact CalDate.ble_trans hble ((List.pairwise_cons.mp h).1 b hbxs)
    case isFalse hble =>
      have hxr : CalDate.ble x.start_date r.start_date = true :=
        CalDate.ble_of_not_ble (by cases hb : CalDate.ble r.start_date x.start_date
                                   · rfl
                                   · exact absurd hb hble)
      obtain ⟨hx, hxs⟩ := List.pairwise_cons.mp h
      refine List.pairwise_cons.mpr ⟨?_, ih hxs⟩
      intro b hb
      rcases (mem_insertByStart r b xs).mp hb with heq | hbxs
      · rw [heq]; exact hxr
      · exact hx b hbxs

theorem sortByStart_sorted (l : List Request) : SortedStart (sortByStart l) := by
  induction l with
  | nil => unfold SortedStart sortByStart; exact List.Pairwise.nil
  | cons x xs ih => unfold sortByStart; exact sortedStart_insertByStart x ih

/-- Claim C1: for every employee, dates s and e, and stored request set,
hasOverlap(emp, s, e, includePending) returns true iff some stored
request of emp whose status is aprobada (approved) — or pendiente
(pending) when includePending — satisfies the inclusive intersection
test not (end_date < s or start_date > e); a rechazada (rejected)
request never makes it true. -/
theorem C1_hasOverlap_iff (st : Store) (emp : String) (s e : CalDate) (ip : Bool) :
    has_overlap_for_employee st emp s e ip = true ↔
      ∃ r ∈ st.vacations, r.employee = emp
        ∧ (r.status = "aprobada" ∨ (ip = true ∧ r.status = "pendiente"))
        ∧ ¬(CalDate.blt r.end_date s = true ∨ CalDate.blt e r.start_date = true) := by
  have hpt : ∀ r : Request,
      (r.employee == emp
        && (if ip then r.status == "aprobada" || r.status == "pendiente"
            else r.status == "aprobada")
        && !(CalDate.blt r.end_date s || CalDate.blt e r.start_date)) = true ↔
      (r.employee = emp
        ∧ (r.status = "aprobada" ∨ (ip = true ∧ r.status = "pendiente"))
        ∧ ¬(CalDate.blt r.end_date s = true ∨ CalDate.blt e r.start_date = true)) := by
    intro r
    cases ip <;> simp <;> tauto
  unfold has_overlap_for_employee
  rw [List.any_eq_true]
  constructor
  · rintro ⟨r, hr, hp⟩
    exact ⟨r, hr, (hpt r).mp hp⟩
  · rintro ⟨r, hr, hp⟩
    exact ⟨r, hr, (hpt r).mpr hp⟩

/-- Claim C7: after createRequest(employee, start, end, note), an
unfiltered listRequests() contains a record with exactly those employee,
start, end and note values and status pendiente (pending). -/
theorem C7_create_then_list (st : Store) (emp : String) (s e : CalDate)
    (note : Option String) (now : Nat) :
    ∃ r ∈ list_requests (create_request st emp s e note now) none none none,
      r.employee = emp ∧ r.start_date = s ∧ r.end_date = e ∧ r.note = note
      ∧ r.status = "pendiente" := by
  unfold list_requests create_request
  dsimp only
  have hft : ∀ l : List Request, l.filter (fun r => true && true) = l :=
    fun l => List.filter_eq_self.mpr (fun a _ => rfl)
  rw [hft]
  exact ⟨_, (sortByStart_perm _).mem_iff.mpr
    (List.mem_append_right _ (List.mem_singleton.mpr rfl)), rfl, rfl, rfl, rfl, rfl⟩

/-- Claim C9: addEmployee is idempotent — adding the same name twice
equals adding it once, and when the name already exists the call leaves
the whole roster (active flags included) unchanged and raises no error. -/
theorem C9_add_employee_idempotent (st : Store) (name : String) :
    add_employee (add_employee st name) name = add_employee st name
    ∧ ((∃ p ∈ st.employees, p.1 = name) → add_employee st name = st) := by
  constructor
  · unfold add_employee
    cases h : st.employees.any (fun p => p.1 == name)
    · simp [List.any_append, h]
    · simp [h]
  · rintro ⟨p, hp, hname⟩
    unfold add_employee
    have hany : (st.employees.any (fun q => q.1 == name)) = true :=
      List.any_eq_true.mpr ⟨p, hp, by simp [hname]⟩
    rw [if_pos hany]

/-- Claim C8 (amended): an updateStatus with a status outside
(pendiente, aprobada, rechazada) is rejected by the CHECK constraint —
an error is surfaced and the store is untouched — exactly when some row
matches the id; when no row matches, the UPDATE touches no row, so no
CHECK fires and the call succeeds leaving the store unchanged.  In
neither case is a partial write made. -/
theorem C8_update_status_invalid (st : Store) (vid : Nat) (ns : String)
    (ap : Option String) (now : Nat) (hns : statusValid ns = false) :
    ((∃ r ∈ st.vacations, r.id = vid) →
      update_status st vid ns ap now = Except.error "CHECK constraint failed")
    ∧ ((¬ ∃ r ∈ st.vacations, r.id = vid) → update_status st vid ns ap now = Except.ok st) := by
  constructor
  · rintro ⟨r, hr, hid⟩
    unfold update_status
    have hany : (st.vacations.any (fun q => q.id == vid)) = true :=
      List.any_eq_true.mpr ⟨r, hr, by simp [hid]⟩
    rw [hany, hns]
    rfl
  · intro hne
    unfold update_status
    have hany : (st.vacations.any (fun q => q.id == vid)) = false := by
      cases ha : st.vacations.any (fun q => q.id == vid)
      · rfl
      · obtain ⟨r, hr, hid⟩ := List.any_eq_true.mp ha
        exact absurd ⟨r, hr, by simpa using hid⟩ hne
    rw [hany, Bool.false_and, if_neg Bool.false_ne_true]
    dsimp only
    have hv : st.vacations.map (fun r => if r.id == vid then { r with status := ns, approved_by := ap, approved_at := (if ns == "aprobada" || ns == "rechazada" then some now else none) } else r) = st.vacations := by
      refine (List.map_congr_left ?_).trans (List.map_id' _)
      intro a ha
      exact if_neg (fun hbeq => hne ⟨a, ha, by simpa using hbeq⟩)
    rw [hv]

/-- Witness for C8: the invalid status invalida is refused with an error
when a row with the id exists (store stApproved, id 1). -/
theorem C8_witness :
    statusValid "invalida" = false
    ∧ (∃ r ∈ stApproved.vacations, r.id = 1)
    ∧ update_status stApproved 1 "invalida" none 0 = Except.error "CHECK constraint failed" := by
  have hex : ∃ r ∈ stApproved.vacations, r.id = 1 := ⟨reqA, by decide, rfl⟩
  exact ⟨by decide, hex,
    (C8_update_status_invalid stApproved 1 "invalida" none 0 (by decide)).1 hex⟩

/-- Counterexample to C8 as stated: on the empty store — or any id with
no matching row — an invalid status surfaces no error at all: the UPDATE
matches no row, so the schema CHECK never fires and the call returns
normally, while the claim demands an error for every store and id. -/
theorem C8_counterexample :
    statusValid "invalida" = false
    ∧ update_status stEmpty 1 "invalida" none 0 = Except.ok stEmpty := by
  exact ⟨by decide, rfl⟩

/-- Claim C3 (amended): for a valid new status, updateStatus(id, ns, a)
rewrites every row with that id: status becomes ns, the approver column
becomes exactly the passed approver value, and the approval timestamp
becomes the current time for aprobada and rechazada and NULL otherwise.
For newStatus pendiente the timestamp is cleared but the approver column
is overwritten with the passed argument — it is cleared only when the
caller passes none, not unconditionally as the claim states.  Other rows
are untouched and the row with the id survives. -/
theorem C3_update_status (st : Store) (vid : Nat) (ns : String)
    (ap : Option String) (now : Nat) (hns : statusValid ns = true) :
    ∃ st2, update_status st vid ns ap now = Except.ok st2
      ∧ (∀ r ∈ st2.vacations, r.id = vid → r.status = ns ∧ r.approved_by = ap
          ∧ r.approved_at = (if ns = "aprobada" ∨ ns = "rechazada" then some now else none))
      ∧ st2.vacations.length = st.vacations.length
      ∧ (∀ r ∈ st2.vacations, r.id ≠ vid → r ∈ st.vacations)
      ∧ (∀ r ∈ st.vacations, r.id = vid → ∃ r2 ∈ st2.vacations, r2.id = vid) := by
  unfold update_status
  rw [hns, Bool.not_true, Bool.and_false, if_neg Bool.false_ne_true]
  dsimp only
  refine ⟨_, rfl, ?_, by simp, ?_, ?_⟩
  · rintro r hr hid
    rcases List.mem_map.mp hr with ⟨r0, hr0, heq⟩
    by_cases h0 : (r0.id == vid) = true
    · rw [if_pos h0] at heq
      rw [← heq]
      refine ⟨rfl, rfl, ?_⟩
      by_cases hh : ns = "aprobada" ∨ ns = "rechazada"
      · rcases hh with hh | hh <;> subst hh <;> simp
      · rw [not_or] at hh
        simp [hh.1, hh.2]
    · rw [if_neg h0] at heq
      rw [← heq] at hid
      exact absurd (by simp [hid]) h0
  · rintro r hr hid
    rcases List.mem_map.mp hr with ⟨r0, hr0, heq⟩
    by_cases h0 : (r0.id == vid) = true
    · rw [if_pos h0] at heq
      rw [← heq] at hid
      exact absurd (by simpa using h0) hid
    · rw [if_neg h0] at heq
      rw [← heq]
      exact hr0
  · rintro r hr hid
    refine ⟨_, List.mem_map_of_mem _ hr, ?_⟩
    rw [if_pos (by simp [hid])]
    exact hid

/-- Witness for C3: approving request 1 of stApproved stamps approver
and timestamp. -/
theorem C3_witness :
    statusValid "aprobada" = true
    ∧ ∃ st2, update_status stApproved 1 "aprobada" (some "X") 7 = Except.ok st2
      ∧ (∀ r ∈ st2.vacations, r.id = 1 → r.status = "aprobada"
          ∧ r.approved_by = some "X"
          ∧ r.approved_at = (if "aprobada" = "aprobada" ∨ "aprobada" = "rechazada"
                             then some 7 else none))
      ∧ st2.vacations.length = stApproved.vacations.length
      ∧ (∀ r ∈ st2.vacations, r.id ≠ 1 → r ∈ stApproved.vacations)
      ∧ (∀ r ∈ stApproved.vacations, r.id = 1 → ∃ r2 ∈ st2.vacations, r2.id = 1) := by
  refine ⟨by decide, ?_⟩
  have h := C3_update_status stApproved 1 "aprobada" (some "X") 7 (by decide)
  obtain ⟨st2, h1, h2, h3, h4, h5⟩ := h
  exact ⟨st2, h1, h2, h3, h4, h5⟩

/-- Counterexample to C3 as stated: resetting request 1 of stApproved to
pendiente with approver X clears the timestamp but writes X into the
approver column instead of clearing it. -/
theorem C3_counterexample :
    update_status stApproved 1 "pendiente" (some "X") 7 = Except.ok stApprovedToPend
    ∧ stApprovedToPend.vacations.map (fun r => r.approved_by) = [some "X"]
    ∧ stApprovedToPend.vacations.map (fun r => r.approved_at) = [none]
    ∧ some ("X" : String) ≠ none := by
  exact ⟨rfl, rfl, rfl, by decide⟩

/-- Claim C4 (amended): with a non-empty employee argument,
deleteRequest(id, emp) removes exactly the rows that have that id,
belong to emp and are still pendiente — if no such row exists the store
is completely unchanged and no error is raised; with the employee
argument omitted (None) the row with that id is removed
unconditionally.  (With an empty-string employee, Python truthiness
selects the unconditional branch; see the counterexample.) -/
theorem C4_delete_request (st : Store) (vid : Nat) (emp : String) (hemp : emp ≠ "") :
    (∀ r, r ∈ (delete_request st vid (some emp)).vacations ↔
       (r ∈ st.vacations ∧ ¬(r.id = vid ∧ r.employee = emp ∧ r.status = "pendiente")))
    ∧ ((¬ ∃ r ∈ st.vacations, r.id = vid ∧ r.employee = emp ∧ r.status = "pendiente") →
        delete_request st vid (some emp) = st)
    ∧ (∀ r, r ∈ (delete_request st vid none).vacations ↔ (r ∈ st.vacations ∧ ¬(r.id = vid))) := by
  have hne : ((emp == "") = true) → False := by simp [hemp]
  refine ⟨?_, ?_, ?_⟩
  · intro r
    unfold delete_request
    dsimp only
    rw [if_neg hne]
    dsimp only
    rw [List.mem_filter]
    simp
    tauto
  · intro hno
    unfold delete_request
    dsimp only
    rw [if_neg hne]
    have hfe : st.vacations.filter
        (fun r => !(r.id == vid && r.employee == emp && r.status == "pendiente")) =
        st.vacations := by
      rw [List.filter_eq_self]
      intro a ha
      cases hb : (a.id == vid && a.employee == emp && a.status == "pendiente")
      · rfl
      · exfalso
        rw [Bool.and_eq_true, Bool.and_eq_true] at hb
        exact hno ⟨a, ha, by simpa using hb.1.1, by simpa using hb.1.2, by simpa using hb.2⟩
    rw [hfe]
  · intro r
    unfold delete_request
    dsimp only
    rw [List.mem_filter]
    simp

/-- Witness for C4: deleting a non-existent id 99 as ANA leaves the
store untouched. -/
theorem C4_witness :
    ("ANA" : String) ≠ ""
    ∧ (¬ ∃ r ∈ stApproved.vacations, r.id = 99 ∧ r.employee = "ANA" ∧ r.status = "pendiente")
    ∧ delete_request stApproved 99 (some "ANA") = stApproved := by
  have hno : ¬ ∃ r ∈ stApproved.vacations, r.id = 99 ∧ r.employee = "ANA"
      ∧ r.status = "pendiente" := by decide
  exact ⟨by decide, hno, (C4_delete_request stApproved 99 "ANA" (by decide)).2.1 hno⟩

/-- Counterexample to C4 as stated: with the empty string as employee
name, Python truthiness treats the argument as absent, so the approved
request of ANA — which neither belongs to the empty-string employee nor
is pendiente — is deleted instead of the call being a no-op. -/
theorem C4_counterexample :
    stApproved.vacations = [reqA]
    ∧ reqA.employee = "ANA"
    ∧ ("" : String) ≠ "ANA"
    ∧ reqA.status = "aprobada"
    ∧ (delete_request stApproved 1 (some "")).vacations = [] := by
  exact ⟨rfl, rfl, by decide, rfl, rfl⟩

/-- Claim C5 (amended): listRequests(year, month, status) returns, in
ascending start-date order, exactly the stored requests whose START
dates year equals the given year and whose start month OR end month
equals the given month — the end dates year is never compared — and
whose status equals a given non-empty status filter.  A request whose
end date falls in the queried month of a different year than its start
date is therefore excluded (see the counterexample). -/
theorem C5_list_requests (st : Store) (yv mv : Nat) (stat : Option String)
    (hy : yv ≠ 0) (hm : mv ≠ 0) (hs : stat ≠ some "") :
    (∀ r, r ∈ list_requests st (some yv) (some mv) stat ↔
       (r ∈ st.vacations ∧ r.start_date.y = yv
        ∧ (r.start_date.m = mv ∨ r.end_date.m = mv)
        ∧ (∀ s, stat = some s → r.status = s)))
    ∧ SortedStart (list_requests st (some yv) (some mv) stat)
    ∧ (list_requests st (some yv) (some mv) stat).Perm
        (st.vacations.filter (fun r =>
          (r.start_date.y == yv && (r.start_date.m == mv || r.end_date.m == mv))
          && (match stat with | some sv => r.status == sv | none => true))) := by
  have hcond : (yv != 0 && mv != 0) = true := by simp [hy, hm]
  revert hs
  cases stat with
  | none =>
    intro hs
    refine ⟨?_, sortByStart_sorted _, ?_⟩
    · intro r
      unfold list_requests
      rw [(sortByStart_perm _).mem_iff, List.mem_filter]
      simp [hy, hm]
    · unfold list_requests
      refine List.Perm.trans (sortByStart_perm _) (List.Perm.of_eq (List.filter_congr ?_))
      intro a _
      dsimp only
      rw [if_pos hcond]
  | some sv =>
    intro hs
    have hsv : sv ≠ "" := fun h => hs (congrArg some h)
    refine ⟨?_, sortByStart_sorted _, ?_⟩
    · intro r
      unfold list_requests
      rw [(sortByStart_perm _).mem_iff, List.mem_filter]
      simp [hy, hm, hsv]
      intro _
      tauto
    · unfold list_requests
      refine List.Perm.trans (sortByStart_perm _) (List.Perm.of_eq (List.filter_congr ?_))
      intro a _
      dsimp only
      rw [if_pos hcond, if_pos (show (sv != "") = true by simp [hsv])]

/-- Witness for C5: the filters 2024 and 3 are non-zero and the output
over stOverlap is sorted by start date. -/
theorem C5_witness :
    ((2024 : Nat) ≠ 0 ∧ (3 : Nat) ≠ 0 ∧ (none : Option String) ≠ some "")
    ∧ SortedStart (list_requests stOverlap (some 2024) (some 3) none) :=
  ⟨⟨by decide, by decide, by decide⟩,
    (C5_list_requests stOverlap 2024 3 none (by decide) (by decide) (by decide)).2.1⟩

/-- Counterexample to C5 as stated: reqDec runs 2023-12-28 to
2024-01-03, so its end date falls in January 2024, yet
listRequests(2024, 1) returns nothing because the SQL compares only the
start dates year (2023) with the queried year. -/
theorem C5_counterexample :
    reqDec ∈ stDec.vacations
    ∧ reqDec.end_date.y = 2024 ∧ reqDec.end_date.m = 1
    ∧ list_requests stDec (some 2024) (some 1) none = [] := by
  exact ⟨by decide, rfl, rfl, rfl⟩

/-- Claim C2 (amended): getCalendarMatrix(year, month) returns
daysInMonth as the day count, a row for exactly the active employees,
each row keyed by the days 1..daysInMonth in order, and each cell of an
active employees row carries the status of the LAST stored request (in
store order) that touches the month window, belongs to that employee
and covers that day after clipping — None when there is none.  When
several requests cover the same employee and day, the last one
processed wins, so a day inside an earlier requests clipped range need
not carry that requests own status (see the counterexample); requests
of inactive employees mark no cells. -/
theorem C2_calendar_matrix (st : Store) (year month : Nat) (emp : String) (day : Nat)
    (_hm1 : 1 ≤ month) (_hm2 : month ≤ 12) (hemp : emp ∈ list_employees st true) :
    (get_calendar_matrix st year month).2 = daysInMonth year month
    ∧ (get_calendar_matrix st year month).1.map Prod.fst = list_employees st true
    ∧ RowsOk (daysInMonth year month) (get_calendar_matrix st year month).1
    ∧ getCell (get_calendar_matrix st year month).1 emp day =
        (lastCover st year month emp day).map (fun r => r.status) :=
  ⟨rfl, get_calendar_matrix_keys st year month, get_calendar_matrix_rows_ok st year month,
    get_calendar_matrix_cell st year month emp day hemp⟩

/-- Witness for C2: March 2024 over stOverlap, active employee ANA,
day 5: the cell equals the status of the last covering request. -/
theorem C2_witness :
    ((1 : Nat) ≤ 3 ∧ (3 : Nat) ≤ 12 ∧ "ANA" ∈ list_employees stOverlap true)
    ∧ getCell (get_calendar_matrix stOverlap 2024 3).1 "ANA" 5 =
        (lastCover stOverlap 2024 3 "ANA" 5).map (fun r => r.status) :=
  ⟨⟨by decide, by decide, by decide⟩,
    (C2_calendar_matrix stOverlap 2024 3 "ANA" 5 (by decide) (by decide) (by decide)).2.2.2⟩

/-- Counterexample to C2 as stated: in stOverlap the aprobada request
reqA touches March 2024 and covers day 4, but the cell for ANA on day 4
shows pendiente — the status of the later-stored overlapping request —
not reqAs own status, so not every day of every intersecting requests
clipped range carries that requests status. -/
theorem C2_counterexample :
    reqA ∈ stOverlap.vacations
    ∧ reqA.status = "aprobada"
    ∧ "ANA" ∈ list_employees stOverlap true
    ∧ reqA.employee = "ANA"
    ∧ touchesWindow 2024 3 reqA = true
    ∧ coversDay 2024 3 reqA 4 = true
    ∧ getCell (get_calendar_matrix stOverlap 2024 3).1 "ANA" 4 = some "pendiente"
    ∧ ("pendiente" : String) ≠ "aprobada" := by
  exact ⟨by decide, rfl, by decide, rfl, rfl, rfl, rfl, by decide⟩

/-- Claim C6: the matrix has a row exactly for each employee whose
active flag is set at query time; an employee inactive at query time
has no row — all their cell reads give None — and their stored requests
mark no cells at all: the matrix is identical to the one computed from
the store with every request of a non-active employee discarded. -/
theorem C6_inactive_absent (st : Store) (year month : Nat) :
    (∀ name, (∃ row ∈ (get_calendar_matrix st year month).1, row.1 = name) ↔
       name ∈ list_employees st true)
    ∧ (∀ name day, name ∉ list_employees st true →
        getCell (get_calendar_matrix st year month).1 name day = none)
    ∧ get_calendar_matrix st year month =
        get_calendar_matrix
          { st with
            vacations := st.vacations.filter (fun r => (list_employees st true).contains r.employee) }
          year month := by
  refine ⟨?_, ?_, get_calendar_matrix_filter_inactive st year month⟩
  · intro name
    constructor
    · rintro ⟨row, hrow, hname⟩
      rw [← get_calendar_matrix_keys st year month]
      exact hname ▸ List.mem_map_of_mem Prod.fst hrow
    · intro hmem
      rw [← get_calendar_matrix_keys st year month] at hmem
      rcases List.mem_map.mp hmem with ⟨row, hrow, hfst⟩
      exact ⟨row, hrow, hfst⟩
  · intro name day hnot
    have hfalse : hasRow (get_calendar_matrix st year month).1 name = false := by
      cases hh : hasRow (get_calendar_matrix st year month).1 name
      · rfl
      · exfalso
        rw [hasRow_iff, get_calendar_matrix_keys] at hh
        exact hnot hh
    exact getCell_of_not_hasRow hfalse day

/-- Witness for C6: BOB is inactive in stInactive, holds a March 2024
request, and has no cell in the March 2024 matrix. -/
theorem C6_witness :
    ("BOB" ∉ list_employees stInactive true)
    ∧ getCell (get_calendar_matrix stInactive 2024 3).1 "BOB" 10 = none :=
  ⟨by decide, (C6_inactive_absent stInactive 2024 3).2.1 "BOB" 10 (by decide)⟩

/-- Claim C10: the store accepts inverted ranges (createRequest inserts
them unchecked), and getCalendarMatrix is total on them: for a stored
request with start_date > end_date the clipped per-day range is empty,
so the request marks no cells, and the full matrix — all active rows,
all day keys, the day count — is still returned. -/
theorem C10_inverted_range (st : Store) (year month : Nat) (r : Request)
    (hinv : CalDate.blt r.end_date r.start_date = true) :
    daterange (dmax r.start_date (windowStart year month))
        (dmin r.end_date (windowEnd year month)) = []
    ∧ (∀ mat, markRequest (windowStart year month) (windowEnd year month) mat r = mat)
    ∧ (get_calendar_matrix st year month).1.map Prod.fst = list_employees st true
    ∧ RowsOk (daysInMonth year month) (get_calendar_matrix st year month).1
    ∧ (get_calendar_matrix st year month).2 = daysInMonth year month
    ∧ (∀ emp2 note now,
        ∃ r2 ∈ (create_request st emp2 r.start_date r.end_date note now).vacations,
          r2.start_date = r.start_date ∧ r2.end_date = r.end_date ∧ r2.status = "pendiente") := by
  have hble : CalDate.ble (dmax r.start_date (windowStart year month))
      (dmin r.end_date (windowEnd year month)) = false := by
    cases hb : CalDate.ble (dmax r.start_date (windowStart year month))
        (dmin r.end_date (windowEnd year month))
    · rfl
    · exfalso
      have h1 := ble_dmax_left r.start_date (windowStart year month)
      have h2 := dmin_ble_left r.end_date (windowEnd year month)
      have h3 := CalDate.ble_trans (CalDate.ble_trans h1 hb) h2
      rw [CalDate.ble_iff] at h3
      rw [CalDate.blt_iff] at hinv
      omega
  have hdr : daterange (dmax r.start_date (windowStart year month))
      (dmin r.end_date (windowEnd year month)) = [] := daterangeAux_nil hble _
  refine ⟨hdr, ?_, get_calendar_matrix_keys st year month,
    get_calendar_matrix_rows_ok st year month, rfl, ?_⟩
  · intro mat
    unfold markRequest
    rw [hdr]
    rfl
  · intro emp2 note now
    exact ⟨_, List.mem_append_right _ (List.mem_singleton.mpr rfl), rfl, rfl, rfl⟩

/-- Witness for C10: reqInv has start 2024-03-15 after end 2024-03-12,
still touches March 2024, yet its clipped day range is empty and the
matrix keys are intact. -/
theorem C10_witness :
    CalDate.blt reqInv.end_date reqInv.start_date = true
    ∧ touchesWindow 2024 3 reqInv = true
    ∧ daterange (dmax reqInv.start_date (windowStart 2024 3))
        (dmin reqInv.end_date (windowEnd 2024 3)) = []
    ∧ (get_calendar_matrix stInv 2024 3).1.map Prod.fst = list_employees stInv true :=
  ⟨by decide, by decide, (C10_inverted_range stInv 2024 3 reqInv (by decide)).1,
    (C10_inverted_range stInv 2024 3 reqInv (by decide)).2.2.1⟩

/-- Witness for C1 at a concrete store: the overlap test on stOverlap. -/
theorem C1_witness :
    has_overlap_for_employee stOverlap "ANA" { y := 2024, m := 3, d := 5 }
        { y := 2024, m := 3, d := 6 } false = true ↔
      ∃ r ∈ stOverlap.vacations, r.employee = "ANA"
        ∧ (r.status = "aprobada" ∨ (false = true ∧ r.status = "pendiente"))
        ∧ ¬(CalDate.blt r.end_date { y := 2024, m := 3, d := 5 } = true
            ∨ CalDate.blt { y := 2024, m := 3, d := 6 } r.start_date = true) :=
  C1_hasOverlap_iff stOverlap "ANA" { y := 2024, m := 3, d := 5 }
    { y := 2024, m := 3, d := 6 } false

/-- Witness for C7 at a concrete store: creating a request for BOB in
the empty store puts it, pendiente, into the unfiltered listing. -/
theorem C7_witness :
    ∃ r ∈ list_requests (create_request stEmpty "BOB" { y := 2024, m := 5, d := 2 }
        { y := 2024, m := 5, d := 6 } (some "trip") 11) none none none,
      r.employee = "BOB" ∧ r.start_date = { y := 2024, m := 5, d := 2 }
      ∧ r.end_date = { y := 2024, m := 5, d := 6 } ∧ r.note = some "trip"
      ∧ r.status = "pendiente" :=
  C7_create_then_list stEmpty "BOB" { y := 2024, m := 5, d := 2 }
    { y := 2024, m := 5, d := 6 } (some "trip") 11

/-- Witness for C9 at a concrete roster: ANA is already present, so a
repeated add is the identity. -/
theorem C9_witness :
    (∃ p ∈ stApproved.employees, p.1 = "ANA")
    ∧ add_employee stApproved "ANA" = stApproved
    ∧ add_employee (add_employee stApproved "ANA") "ANA" = add_employee stApproved "ANA" := by
  have hex : ∃ p ∈ stApproved.employees, p.1 = "ANA" := ⟨("ANA", true), by decide, rfl⟩
  exact ⟨hex, (C9_add_employee_idempotent stApproved "ANA").2 hex,
    (C9_add_employee_idempotent stApproved "ANA").1⟩

end VacacionesDB
